import Mathlib

/-
Verification of the Cyclus Dynamic Resource Exchange core: the exchange-graph
data model (Node / NodeSet / Arc / ExchangeGraph), the capacity engine
(Capacity / UpdateCapacity), the bid-portfolio construction invariants, and
the logging level-name table.

The exchange-graph and bid-portfolio implementation files (exchange_graph.h/.cc,
bid_portfolio.h, cyc_limits.h) are not present under src/; only their unit tests
are (src/tests/exchange_graph_tests.cc, src/tests/bid_portfolio_tests.cc).
The definitions below are therefore modelled from the specification, adjusted
where the tests — which are repository code — pin the behaviour down
differently; each such adjustment is recorded in the definition's doc comment.

Doubles are modelled as exact rationals (ℚ); the +∞ returned by capacity
queries (std::numeric_limits<double>::max() in the tests) is modelled by an
explicit infinity added on top of ℚ (the `Cap` type).  C++ exceptions are
modelled by an explicit result type (`Res`); std::map is modelled by
association lists, so that whole states have decidable equality.
-/

namespace Cyclus

/-- Modelled from the spec: cyc_limits.h is missing from src/.  The spec
defines a small positive tolerance constant eps, "typically on the order of
1e-6 in quantity units"; the tests use `cyclus::eps()`. -/
def eps : ℚ := 1 / 1000000

/-- Modelled from the spec: cyc_limits.h is missing from src/.  The spec's
§4.1 writes `neg(x) ≡ x < −eps·(1+|eps|)`, but the test
ExGraphTests.NodeUpdateThrow2 (src/tests/exchange_graph_tests.cc:120-122)
builds a residual of exactly `−eps·(1+eps)` and asserts
`cyclus::DoubleNeg` holds of it, which is false under the spec's formula
(strict inequality of a value with itself).  The test therefore fixes the
threshold at `−eps`: `DoubleNeg x ≡ x < −eps`, and the `(1+eps)` factor in
the test exists precisely to land strictly beyond that threshold. -/
def DoubleNeg (x : ℚ) : Prop := x < -eps

instance (x : ℚ) : Decidable (DoubleNeg x) :=
  inferInstanceAs (Decidable (x < -eps))

/-- Error kinds surfaced at the core boundary (spec §7). -/
inductive CycError where
  | stateError
  | valueError
  | keyError
deriving DecidableEq

/-- Result of a fallible operation: models C++ "return value or thrown
exception". -/
inductive Res (α : Type) where
  | ok : α → Res α
  | err : CycError → Res α
deriving DecidableEq

/-- A capacity query result: either a finite rational or +∞ (the spec's +∞,
realised in the tests as std::numeric_limits<double>::max()). -/
inductive Cap where
  | val : ℚ → Cap
  | inf : Cap
deriving DecidableEq

/-- Order on capacity values, with `inf` on top. -/
def Cap.le : Cap → Cap → Prop
  | _, .inf => True
  | .val a, .val b => a ≤ b
  | .inf, .val _ => False

instance Cap.decLe : ∀ a b : Cap, Decidable (Cap.le a b)
  | .val _, .inf => .isTrue trivial
  | .inf, .inf => .isTrue trivial
  | .val a, .val b => inferInstanceAs (Decidable (a ≤ b))
  | .inf, .val _ => .isFalse id

/-- Minimum of two capacity values. -/
def Cap.min : Cap → Cap → Cap
  | .inf, c => c
  | c, .inf => c
  | .val a, .val b => .val (Min.min a b)

/-- Association-list lookup (models std::map access that does not insert). -/
def alookup {κ α : Type} [DecidableEq κ] (k : κ) : List (κ × α) → Option α
  | [] => none
  | (k', v) :: rest => if k' = k then some v else alookup k rest

/-- Association-list update (models std::map operator[] assignment): replace
the first binding of `k`, or append a fresh one. -/
def aset {κ α : Type} [DecidableEq κ] (k : κ) (v : α) : List (κ × α) → List (κ × α)
  | [] => [(k, v)]
  | (k', v') :: rest => if k' = k then (k, v) :: rest else (k', v') :: aset k v rest

/-- An arc joins a request-side node `u` to a bid-side node `v`; arcs are
values compared by their endpoint pair (spec §3).  Nodes are identified by
natural-number handles (spec §9 recommends handles over pointers). -/
structure Arc where
  u : ℕ
  v : ℕ
deriving DecidableEq

/-- A node: the weak back-reference to its containing NodeSet (`none` when the
node has not been added to any set) and its per-arc unit-capacity
coefficient vectors (std::map<Arc, std::vector<double>>). -/
structure NodeData where
  set : Option ℕ
  unit_capacities : List (Arc × List ℚ)
deriving DecidableEq

/-- The exchange-graph state: node records, the capacity vector of each
NodeSet (the mutable part of a set), the request/supply set lists, the
node → incident-arcs index, and the append-only match log (spec §3, §4.5). -/
structure ExchangeGraph where
  nodes : List (ℕ × NodeData)
  setCaps : List (ℕ × List ℚ)
  request_sets : List ℕ
  supply_sets : List ℕ
  node_arc_map : List (ℕ × List Arc)
  match_log : List (Arc × ℚ)
deriving DecidableEq

/-- A node handle with no record behaves as a freshly constructed Node:
no containing set, no coefficients. -/
def defaultNode : NodeData := { set := none, unit_capacities := [] }

/-- The node record behind a handle. -/
def nodeOf (g : ExchangeGraph) (n : ℕ) : NodeData :=
  (alookup n g.nodes).getD defaultNode

/-- The capacity vector of NodeSet `s`. -/
def capsOf (g : ExchangeGraph) (s : ℕ) : List ℚ :=
  (alookup s g.setCaps).getD []

/-- A node's unit-capacity coefficient vector for arc `a` (empty when absent,
as std::map operator[] default-constructs). -/
def ucapsOf (nd : NodeData) (a : Arc) : List ℚ :=
  (alookup a nd.unit_capacities).getD []

/-- One dimension's contribution to a capacity query: `Cᵢ / uᵢ`, where a zero
coefficient contributes +∞ (spec §4.4). -/
def ratio (c u : ℚ) : Cap :=
  if u = 0 then Cap.inf else Cap.val (c / u)

/-- Minimum over all constraint dimensions of `Cᵢ / uᵢ` (spec §4.4). -/
def minRatio (C U : List ℚ) : Cap :=
  ((C.zip U).map (fun p => ratio p.1 p.2)).foldr Cap.min Cap.inf

/-- Modelled from the spec: exchange_graph.cc is missing from src/.
`Capacity(n, a)` (spec §4.4): StateError when `n` has no containing set;
+∞ when the set's capacity vector is empty; otherwise the min-ratio over
all constraint dimensions.  Exercised by ExGraphTests.NodeCapThrow,
NodeNoCap, NodeCaps1, NodeCaps2. -/
def Capacity (g : ExchangeGraph) (n : ℕ) (a : Arc) : Res Cap :=
  match (nodeOf g n).set with
  | none => .err .stateError
  | some s =>
    if (capsOf g s).isEmpty then .ok .inf
    else .ok (minRatio (capsOf g s) (ucapsOf (nodeOf g n) a))

/-- Modelled from the spec: exchange_graph.cc is missing from src/.
`Capacity(a)` (spec §4.4): the min of the two endpoint capacities. -/
def ArcCapacity (g : ExchangeGraph) (a : Arc) : Res Cap :=
  match Capacity g a.u a with
  | .err e => .err e
  | .ok cu =>
    match Capacity g a.v a with
    | .err e => .err e
    | .ok cv => .ok (Cap.min cu cv)

/-- The tentative post-update constraint values `Cᵢ' = Cᵢ − uᵢ·qty`
(spec §4.4 step 3). -/
def subCaps (C U : List ℚ) (qty : ℚ) : List ℚ :=
  (C.zip U).map (fun p => p.1 - p.2 * qty)

/-- Clamp every entry to nonnegative (spec §4.4 step 3: "clamped-to-nonneg"). -/
def clampCaps (l : List ℚ) : List ℚ :=
  l.map (fun c => max c 0)

/-- Modelled from the spec: exchange_graph.cc is missing from src/.
`UpdateCapacity(n, a, qty)` (spec §4.4, steps in the spec's order):
1. negative `qty` → ValueError; 2. no containing set → StateError;
3. for each dimension, `Cᵢ' = Cᵢ − uᵢ·qty`; any `DoubleNeg Cᵢ'` →
ValueError ("insufficient capacity"), otherwise the clamped values are
written back into the set's capacity vector.  Exercised by
ExGraphTests.NodeCaps1/2, NodeUpdateThrow1/2, ArcCap. -/
def UpdateCapacity (g : ExchangeGraph) (n : ℕ) (a : Arc) (qty : ℚ) : Res ExchangeGraph :=
  if qty < 0 then .err .valueError
  else
    match (nodeOf g n).set with
    | none => .err .stateError
    | some s =>
      if (subCaps (capsOf g s) (ucapsOf (nodeOf g n) a) qty).any
          (fun c => decide (DoubleNeg c)) then .err .valueError
      else .ok { g with
                 setCaps := aset s
                   (clampCaps (subCaps (capsOf g s) (ucapsOf (nodeOf g n) a) qty))
                   g.setCaps }

/-- A sequence of `UpdateCapacity` calls, stopping at the first error. -/
def ApplyUpdates (g : ExchangeGraph) : List (ℕ × Arc × ℚ) → Res ExchangeGraph
  | [] => .ok g
  | (n, a, q) :: rest =>
    match UpdateCapacity g n a q with
    | .err e => .err e
    | .ok g' => ApplyUpdates g' rest

/-- Modelled from the spec: exchange_graph.cc is missing from src/.
`AddArc(a)` (spec §4.5): append `a` to `node_arc_map[a.u]` and to
`node_arc_map[a.v]`, preserving insertion order.  Exercised by
ExGraphTests.AddArc1, AddArc2. -/
def AddArc (g : ExchangeGraph) (a : Arc) : ExchangeGraph :=
  let m1 := aset a.u (((alookup a.u g.node_arc_map).getD []) ++ [a]) g.node_arc_map
  let m2 := aset a.v (((alookup a.v m1).getD []) ++ [a]) m1
  { g with node_arc_map := m2 }

/-- Modelled from the spec: exchange_graph.cc is missing from src/.
`AddMatch(a, qty)` (spec §4.5): append `(a, qty)` to the match log
(the C++ field `matches`, renamed here because that word is reserved in
Lean); nothing else changes.  Exercised by ExGraphTests.AddMatch. -/
def AddMatch (g : ExchangeGraph) (a : Arc) (qty : ℚ) : ExchangeGraph :=
  { g with match_log := g.match_log ++ [(a, qty)] }

/-- The arcs a single `AddArc a` call contributes to node `n`'s incidence
list: one copy as `a.u`, then one copy as `a.v` (two copies for a
self-loop). -/
def incTo (n : ℕ) (a : Arc) : List Arc :=
  (if a.u = n then [a] else []) ++ (if a.v = n then [a] else [])

/-- Node `n`'s incidence list in graph `g`. -/
def arcsOf (g : ExchangeGraph) (n : ℕ) : List Arc :=
  (alookup n g.node_arc_map).getD []

/-- A resource request, identified by a handle and carrying its commodity
(agents and commodities are identified by natural-number handles). -/
structure Request where
  id : ℕ
  commodity : ℕ
deriving DecidableEq

/-- A bid portfolio under construction: the bidder and commodity established
by the first AddBid (none before it) and the accumulated bids, each
recording the request responded to and the responder. -/
structure BidPortfolio where
  bidder : Option ℕ
  commodity : Option ℕ
  bids : List (Request × ℕ)
deriving DecidableEq

/-- A bid portfolio with no bids yet. -/
def emptyPortfolio : BidPortfolio :=
  { bidder := none, commodity := none, bids := [] }

/-- Modelled from the spec: bid_portfolio.h is missing from src/.
`BidPortfolio::AddBid(request, offer, bidder)` (spec §4.7) verifies the
portfolio invariants and appends the bid.  The spec's §4.7 says the
invariants are same-bidder and "each bid's request field may be referenced
at most once", but the test BidPortfolioTests.Sets
(src/tests/bid_portfolio_tests.cc:74-75) adds two bids naming the same
request to one portfolio with no error, while BidPortfolioTests.RespAdd
(line 65) shows that a same-bidder AddBid for a request of a *different
commodity* throws KeyError.  The invariants enforced by the tests are
therefore: all bids share one bidder and all bids share one commodity
(the commodity of the requests responded to); violations raise KeyError;
duplicate requests are accepted. -/
def AddBid (p : BidPortfolio) (r : Request) (bidder : ℕ) : Res BidPortfolio :=
  if p.bidder.getD bidder ≠ bidder then .err .keyError
  else if p.commodity.getD r.commodity ≠ r.commodity then .err .keyError
  else
    .ok { bidder := some bidder, commodity := some r.commodity,
          bids := p.bids ++ [(r, bidder)] }

/-- The seven registered log levels, in registration order
(src/unnamed/part_000:74-82): index in this list = numeric enum value. -/
def logLevelNames : List String :=
  ["LEV_ERROR", "LEV_WARNING", "LEV_INFO", "LEV_DEBUG",
   "LEV_DEBUG1", "LEV_DEBUG2", "LEV_DEBUG3"]

/-- `Log::addLevel`'s padding (src/unnamed/part_000:101-111): prepend one
space at a time until the field width 12 is reached (names already at
least 12 characters long are left unchanged), i.e. left-pad /
right-justify to width 12. -/
def padName (t : String) : String :=
  String.mk (List.replicate (12 - t.length) ' ') ++ t

/-- The `Log::level_to_string` table after `Log::initialize()` ran
(src/unnamed/part_000:46-48,74-82): the seven names, each padded. -/
def level_to_string : List String :=
  logLevelNames.map padName

/-- `Log::ToString(level)` (src/unnamed/part_000:90-98): look up
`level_to_string.at((int)level)` and catch any exception, returning
"BAD_LEVEL" instead.  `std::vector::at` throws exactly when the index is
out of range, i.e. when the level (an enum value, possibly cast from an
arbitrary int) is negative or at least the table's size. -/
def logToString (level : ℤ) : String :=
  if level < 0 then "BAD_LEVEL"
  else (level_to_string.getD level.toNat "BAD_LEVEL")

/-- The claim's reading of the registered name: the level name right-padded
(spaces appended) to width 12.  Stated only to be compared with the
source's `padName`. -/
def rightPadSpec (t : String) : String :=
  t ++ String.mk (List.replicate (12 - t.length) ' ')

/-- Componentwise agreement of two capacity vectors within the tolerance
eps (out-of-range indices read as 0, so equal lengths are required
separately). -/
def ListWithinEps (l1 l2 : List ℚ) : Prop :=
  l1.length = l2.length ∧ ∀ i, |l1.getD i 0 - l2.getD i 0| ≤ eps

/- ------------------------------------------------------------------ -/
/- Concrete states realising the unit-test scenarios                  -/
/- ------------------------------------------------------------------ -/

/-- The ExGraphTests.NodeCaps2 arc. -/
def aNodeCaps2 : Arc := ⟨0, 1⟩

/-- The ExGraphTests.NodeCaps2 graph: node 1 in set 0 with capacities
C = [10, 5, 3, 1] and unit capacities u = [2.1, 1.7, 0.07, 0.01] on the
arc. -/
def gNodeCaps2 : ExchangeGraph :=
  { nodes := [(1, { set := some 0,
                    unit_capacities := [(aNodeCaps2, [21/10, 17/10, 7/100, 1/100])] })],
    setCaps := [(0, [10, 5, 3, 1])],
    request_sets := [], supply_sets := [], node_arc_map := [], match_log := [] }

/-- The ExGraphTests.NodeUpdateThrow2 arc. -/
def aThrow2 : Arc := ⟨0, 1⟩

/-- The ExGraphTests.NodeUpdateThrow2 graph: node 1 in set 0 with a single
capacity `qty·unit − eps·(1+eps)` for qty = 10, unit = 2. -/
def gThrow2 : ExchangeGraph :=
  { nodes := [(1, { set := some 0, unit_capacities := [(aThrow2, [2])] })],
    setCaps := [(0, [10 * 2 - eps * (1 + eps)])],
    request_sets := [], supply_sets := [], node_arc_map := [], match_log := [] }

/-- The ExGraphTests.ArcCap arc. -/
def aArcCap : Arc := ⟨0, 1⟩

/-- The ExGraphTests.ArcCap graph: endpoint 0 in set 0 with C = [1.5],
u = [1.0]; endpoint 1 in set 1 with C = [0.5], u = [0.5]. -/
def gArcCap : ExchangeGraph :=
  { nodes := [(0, { set := some 0, unit_capacities := [(aArcCap, [1])] }),
              (1, { set := some 1, unit_capacities := [(aArcCap, [1/2])] })],
    setCaps := [(0, [3/2]), (1, [1/2])],
    request_sets := [], supply_sets := [], node_arc_map := [], match_log := [] }

/-- The ExGraphTests.ArcCap graph after `UpdateCapacity(u, a, 1.0)` and
`UpdateCapacity(v, a, 1.0)`. -/
def gArcCapFinal : ExchangeGraph :=
  { gArcCap with setCaps := [(0, [1/2]), (1, [0])] }

/-- The arc used by the C8 scenarios. -/
def aC8 : Arc := ⟨0, 1⟩

/-- C8 witness start state: node 1 in set 0, C = [3], u = [1]. -/
def gC8 : ExchangeGraph :=
  { nodes := [(1, { set := some 0, unit_capacities := [(aC8, [1])] })],
    setCaps := [(0, [3])],
    request_sets := [], supply_sets := [], node_arc_map := [], match_log := [] }

/-- gC8 after an update of qty 1. -/
def gC8a : ExchangeGraph := { gC8 with setCaps := [(0, [2])] }

/-- gC8 after updates totalling qty 2. -/
def gC8b : ExchangeGraph := { gC8 with setCaps := [(0, [1])] }

/-- C8 counterexample state: node 1 in set 0, C = [0], u = [1]. -/
def gC8x : ExchangeGraph :=
  { nodes := [(1, { set := some 0, unit_capacities := [(aC8, [1])] })],
    setCaps := [(0, [0])],
    request_sets := [], supply_sets := [], node_arc_map := [], match_log := [] }

/- ------------------------------------------------------------------ -/
/- Pointwise list computation lemmas                                  -/
/- ------------------------------------------------------------------ -/

theorem subCaps_cons (c u q : ℚ) (C U : List ℚ) :
    subCaps (c :: C) (u :: U) q = (c - u * q) :: subCaps C U q := rfl

theorem subCaps_nil_left (U : List ℚ) (q : ℚ) : subCaps [] U q = [] := rfl

theorem subCaps_nil_right (C : List ℚ) (q : ℚ) : subCaps C [] q = [] := by
  cases C <;> rfl

theorem clampCaps_cons (c : ℚ) (l : List ℚ) :
    clampCaps (c :: l) = max c 0 :: clampCaps l := rfl

theorem clampCaps_nil : clampCaps [] = [] := rfl

/- ------------------------------------------------------------------ -/
/- Association-list lemmas                                            -/
/- ------------------------------------------------------------------ -/

theorem alookup_aset_self {κ α : Type} [DecidableEq κ] (k : κ) (v : α) :
    ∀ l : List (κ × α), alookup k (aset k v l) = some v := by
  intro l
  induction l with
  | nil => simp [alookup, aset]
  | cons p rest ih =>
    by_cases h : p.1 = k
    · simp [alookup, aset, h]
    · simp [alookup, aset, h, ih]

theorem alookup_aset_ne {κ α : Type} [DecidableEq κ] (k k' : κ) (v : α)
    (hne : k' ≠ k) :
    ∀ l : List (κ × α), alookup k' (aset k v l) = alookup k' l := by
  have hne2 : k ≠ k' := Ne.symm hne
  intro l
  induction l with
  | nil => simp [alookup, aset, hne2]
  | cons p rest ih =>
    by_cases h : p.1 = k
    · subst h
      simp [alookup, aset, hne2]
    · simp only [aset, if_neg h, alookup]
      by_cases h2 : p.1 = k'
      · simp [h2]
      · simp [h2, ih]

/- ------------------------------------------------------------------ -/
/- Cap lemmas                                                         -/
/- ------------------------------------------------------------------ -/

theorem Cap.le_trans : ∀ a b c : Cap, Cap.le a b → Cap.le b c → Cap.le a c
  | .val a, .val b, .val c, h1, h2 => (show a ≤ b from h1).trans (show b ≤ c from h2)
  | .val _, .val _, .inf, _, _ => trivial
  | .val _, .inf, .inf, _, _ => trivial
  | .inf, .inf, .inf, _, _ => trivial
  | .inf, .val _, .inf, _, _ => trivial
  | .val _, .inf, .val _, _, h2 => h2.elim
  | .inf, .val _, .val _, h1, _ => h1.elim
  | .inf, .inf, .val _, _, h2 => h2.elim

theorem Cap.min_le_left : ∀ a b : Cap, Cap.le (Cap.min a b) a
  | .inf, .inf => trivial
  | .inf, .val _ => trivial
  | .val _, .inf => by simp [Cap.min, Cap.le]
  | .val x, .val y => by simp [Cap.min, Cap.le, min_le_left]

theorem Cap.min_le_right : ∀ a b : Cap, Cap.le (Cap.min a b) b
  | .inf, .inf => trivial
  | .inf, .val _ => by simp [Cap.min, Cap.le]
  | .val _, .inf => trivial
  | .val x, .val y => by simp [Cap.min, Cap.le, min_le_right]

theorem Cap.min_eq_or : ∀ a b : Cap, Cap.min a b = a ∨ Cap.min a b = b
  | .inf, .inf => .inl rfl
  | .inf, .val _ => .inr rfl
  | .val _, .inf => .inl rfl
  | .val x, .val y => by
      rcases min_choice x y with h | h
      · exact .inl (by simp [Cap.min, h])
      · exact .inr (by simp [Cap.min, h])

theorem Cap.min_inf_right (a : Cap) : Cap.min a Cap.inf = a := by
  cases a <;> rfl

/-- The fold computing `minRatio` is a lower bound of every list element. -/
theorem foldr_min_le (l : List Cap) (x : Cap) (hx : x ∈ l) :
    Cap.le (l.foldr Cap.min Cap.inf) x := by
  induction l with
  | nil => cases hx
  | cons y rest ih =>
    rcases List.mem_cons.mp hx with h | h
    · subst h
      exact Cap.min_le_left _ _
    · exact Cap.le_trans _ _ _ (Cap.min_le_right y _) (ih h)

/-- Reading an in-range index with `getD` yields a list element. -/
theorem getD_mem {α : Type} : ∀ (l : List α) (i : ℕ) (d : α), i < l.length →
    l.getD i d ∈ l := by
  intro l
  induction l with
  | nil => intro i d h; cases h
  | cons x rest ih =>
    intro i d h
    cases i with
    | zero => simp
    | succ j =>
      simp only [List.getD_cons_succ]
      exact List.mem_cons_of_mem _ (ih j d (by simpa using h))

/-- Every list element is read by `getD` at some in-range index. -/
theorem mem_getD {α : Type} : ∀ (l : List α) (x : α) (d : α), x ∈ l →
    ∃ i, i < l.length ∧ l.getD i d = x := by
  intro l
  induction l with
  | nil => intro x d h; cases h
  | cons y rest ih =>
    intro x d h
    rcases List.mem_cons.mp h with h | h
    · exact ⟨0, by simp, h.symm⟩
    · obtain ⟨i, hi, hg⟩ := ih x d h
      exact ⟨i + 1, by simpa using hi, by simpa using hg⟩

/-- Index view of the list folded by `minRatio`: at every index covered by
both vectors the mapped list holds that dimension's ratio. -/
theorem ratio_list_getD : ∀ (C U : List ℚ) (i : ℕ), i < C.length → i < U.length →
    ((C.zip U).map (fun p => ratio p.1 p.2)).getD i Cap.inf
      = ratio (C.getD i 0) (U.getD i 0) := by
  intro C
  induction C with
  | nil => intro U i h _; cases h
  | cons c C' ih =>
    intro U i hC hU
    cases U with
    | nil => cases hU
    | cons u U' =>
      cases i with
      | zero => rfl
      | succ j =>
        simp only [List.zip_cons_cons, List.map_cons, List.getD_cons_succ]
        exact ih U' j (by simpa using hC) (by simpa using hU)

/-- The fold computing `minRatio` attains its value on a nonempty list. -/
theorem foldr_min_mem : ∀ l : List Cap, l ≠ [] → l.foldr Cap.min Cap.inf ∈ l := by
  intro l
  induction l with
  | nil => intro h; exact absurd rfl h
  | cons y rest ih =>
    intro _
    cases rest with
    | nil => simp [Cap.min_inf_right]
    | cons z rest2 =>
      rcases Cap.min_eq_or y ((z :: rest2).foldr Cap.min Cap.inf) with h | h
      · simp only [List.foldr_cons] at *
        rw [h]
        exact List.mem_cons_self _ _
      · simp only [List.foldr_cons] at *
        rw [h]
        exact List.mem_cons_of_mem _ (ih (by simp))

/- ------------------------------------------------------------------ -/
/- Frame and inversion lemmas for the capacity engine                 -/
/- ------------------------------------------------------------------ -/

theorem nodeOf_setCaps (g : ExchangeGraph) (sc : List (ℕ × List ℚ)) (n : ℕ) :
    nodeOf { g with setCaps := sc } n = nodeOf g n := rfl

theorem capsOf_setCaps (g : ExchangeGraph) (sc : List (ℕ × List ℚ)) (s : ℕ) :
    capsOf { g with setCaps := sc } s = (alookup s sc).getD [] := rfl

/-- Inversion of a successful `UpdateCapacity` call: the node had a
containing set, no post-update constraint value was `DoubleNeg`, and the
result is the input graph with that set's capacity vector replaced by the
clamped values. -/
theorem update_ok_inv (g : ExchangeGraph) (n : ℕ) (a : Arc) (q : ℚ)
    (g' : ExchangeGraph) (h : UpdateCapacity g n a q = .ok g') :
    ∃ s, (nodeOf g n).set = some s ∧
      (∀ c ∈ subCaps (capsOf g s) (ucapsOf (nodeOf g n) a) q, ¬ DoubleNeg c) ∧
      g' = { g with
             setCaps := aset s
               (clampCaps (subCaps (capsOf g s) (ucapsOf (nodeOf g n) a) q))
               g.setCaps } := by
  unfold UpdateCapacity at h
  split at h
  · cases h
  · split at h
    · cases h
    · rename_i s hs
      refine ⟨s, hs, ?_, ?_⟩
      · intro c hc
        by_contra hneg
        rw [if_pos ?_] at h
        · cases h
        · exact List.any_eq_true.mpr ⟨c, hc, decide_eq_true hneg⟩
      · split at h
        · cases h
        · exact (Res.ok.injEq _ _ ▸ h).symm

/-- A single `AddArc` call appends the arc to the incidence list of each of
its endpoints (once as `u`, then once as `v`) and touches no other node's
list. -/
theorem arcsOf_AddArc (g : ExchangeGraph) (a : Arc) (n : ℕ) :
    arcsOf (AddArc g a) n = arcsOf g n ++ incTo n a := by
  unfold arcsOf AddArc incTo
  by_cases hv : a.v = n
  · subst hv
    by_cases hu : a.u = a.v
    · rw [hu, alookup_aset_self, alookup_aset_self]
      simp [List.append_assoc]
    · rw [alookup_aset_self, alookup_aset_ne _ _ _ (Ne.symm hu)]
      simp [hu]
  · by_cases hu : a.u = n
    · subst hu
      rw [alookup_aset_ne _ _ _ (fun h : a.u = a.v => hv h.symm), alookup_aset_self]
      simp [hv]
    · rw [alookup_aset_ne _ _ _ (fun h : n = a.v => hv h.symm),
          alookup_aset_ne _ _ _ (fun h : n = a.u => hu h.symm)]
      simp [hu, hv]

/-- The value `minRatio C U` computes on vectors of equal positive length:
it is a lower bound of every dimension's ratio and is attained at some
dimension. -/
theorem minRatio_spec (C U : List ℚ) (hne : C ≠ []) (hlen : U.length = C.length) :
    (∀ i, i < C.length →
      Cap.le (minRatio C U) (ratio (C.getD i 0) (U.getD i 0))) ∧
    (∃ j, j < C.length ∧ minRatio C U = ratio (C.getD j 0) (U.getD j 0)) := by
  unfold minRatio
  have hL : ((C.zip U).map (fun p => ratio p.1 p.2)).length = C.length := by
    simp [List.length_zip, hlen]
  constructor
  · intro i hi
    have hiU : i < U.length := by omega
    have h1 := ratio_list_getD C U i hi hiU
    have h2 := getD_mem ((C.zip U).map (fun p => ratio p.1 p.2)) i Cap.inf
      (by rw [hL]; exact hi)
    rw [h1] at h2
    exact foldr_min_le _ _ h2
  · have hne2 : ((C.zip U).map (fun p => ratio p.1 p.2)) ≠ [] := by
      intro h
      apply hne
      have h0 := congrArg List.length h
      rw [hL] at h0
      exact List.length_eq_zero.mp h0
    have hmem := foldr_min_mem _ hne2
    obtain ⟨j, hj, hg⟩ := mem_getD _ _ Cap.inf hmem
    have hjC : j < C.length := hL ▸ hj
    have hjU : j < U.length := by omega
    exact ⟨j, hjC, by rw [← hg, ratio_list_getD C U j hjC hjU]⟩

/-- Claim C1: for a node in a NodeSet with nonempty capacity vector `C` and
an incident arc whose unit-capacity vector `U` has the same length,
`Capacity` returns the minimum over all dimensions `i` of `Cᵢ / uᵢ`,
where a dimension with `uᵢ = 0` contributes +∞ (the `ratio` function), so
only dimensions with nonzero coefficients can bound the result: the
returned value is a lower bound of every dimension's ratio and equals the
ratio of some dimension. -/
theorem C1_capacity_min_ratio (g : ExchangeGraph) (n : ℕ) (a : Arc) (s : ℕ)
    (hs : (nodeOf g n).set = some s) (hne : capsOf g s ≠ [])
    (hlen : (ucapsOf (nodeOf g n) a).length = (capsOf g s).length) :
    ∃ r, Capacity g n a = .ok r ∧
      (∀ i, i < (capsOf g s).length →
        Cap.le r (ratio ((capsOf g s).getD i 0)
          ((ucapsOf (nodeOf g n) a).getD i 0))) ∧
      (∃ j, j < (capsOf g s).length ∧
        r = ratio ((capsOf g s).getD j 0)
          ((ucapsOf (nodeOf g n) a).getD j 0)) := by
  obtain ⟨hlb, hatt⟩ := minRatio_spec (capsOf g s) (ucapsOf (nodeOf g n) a) hne hlen
  refine ⟨minRatio (capsOf g s) (ucapsOf (nodeOf g n) a), ?_, hlb, hatt⟩
  simp [Capacity, hs, hne]

/-- Witness for C1: the ExGraphTests.NodeCaps2 multi-constraint scenario. -/
theorem C1_witness :
    ∃ r, Capacity gNodeCaps2 1 aNodeCaps2 = .ok r ∧
      (∀ i, i < (capsOf gNodeCaps2 0).length →
        Cap.le r (ratio ((capsOf gNodeCaps2 0).getD i 0)
          ((ucapsOf (nodeOf gNodeCaps2 1) aNodeCaps2).getD i 0))) ∧
      (∃ j, j < (capsOf gNodeCaps2 0).length ∧
        r = ratio ((capsOf gNodeCaps2 0).getD j 0)
          ((ucapsOf (nodeOf gNodeCaps2 1) aNodeCaps2).getD j 0)) :=
  C1_capacity_min_ratio gNodeCaps2 1 aNodeCaps2 0 rfl (by decide) (by decide)

/-- Claim C2: `UpdateCapacity` with qty ≥ 0 on a node with a containing set
computes `Cᵢ' = Cᵢ − uᵢ·qty` for every dimension; if any `Cᵢ'` is
negative beyond the signed epsilon (`DoubleNeg`) it raises ValueError,
otherwise it writes the values clamped to nonnegative back into the
set's capacity vector. -/
theorem C2_update_spec (g : ExchangeGraph) (n : ℕ) (a : Arc) (qty : ℚ) (s : ℕ)
    (hq : 0 ≤ qty) (hs : (nodeOf g n).set = some s) :
    ((∃ c ∈ subCaps (capsOf g s) (ucapsOf (nodeOf g n) a) qty, DoubleNeg c) →
        UpdateCapacity g n a qty = .err .valueError) ∧
    ((∀ c ∈ subCaps (capsOf g s) (ucapsOf (nodeOf g n) a) qty, ¬ DoubleNeg c) →
        UpdateCapacity g n a qty = .ok { g with
          setCaps := aset s
            (clampCaps (subCaps (capsOf g s) (ucapsOf (nodeOf g n) a) qty))
            g.setCaps }) := by
  constructor
  · rintro ⟨c, hc, hneg⟩
    simp only [UpdateCapacity, if_neg (not_lt.mpr hq), hs]
    rw [if_pos (List.any_eq_true.mpr ⟨c, hc, decide_eq_true hneg⟩)]
  · intro hall
    simp only [UpdateCapacity, if_neg (not_lt.mpr hq), hs]
    rw [if_neg ?_]
    intro h
    obtain ⟨c, hc, hd⟩ := List.any_eq_true.mp h
    exact hall c hc (of_decide_eq_true hd)

/-- Witness for C2: the ExGraphTests.NodeUpdateThrow2 over-allocation — with
capacity `qty·u − eps·(1+eps)`, an update of qty raises ValueError. -/
theorem C2_witness :
    UpdateCapacity gThrow2 1 aThrow2 10 = .err .valueError := by
  refine (C2_update_spec gThrow2 1 aThrow2 10 0 (by norm_num) rfl).1 ?_
  refine ⟨10 * 2 - eps * (1 + eps) - 2 * 10, ?_, ?_⟩
  · show _ ∈ subCaps (capsOf gThrow2 0) (ucapsOf (nodeOf gThrow2 1) aThrow2) 10
    norm_num [subCaps, capsOf, ucapsOf, nodeOf, gThrow2, aThrow2, alookup, defaultNode]
  · norm_num [DoubleNeg, eps]

/-- Claim C4: a node whose containing NodeSet has an empty capacity vector
has capacity +∞ on every arc (the node imposes no constraint on its
side). -/
theorem C4_empty_caps_unbounded (g : ExchangeGraph) (n : ℕ) (a : Arc) (s : ℕ)
    (hs : (nodeOf g n).set = some s) (hc : capsOf g s = []) :
    Capacity g n a = .ok .inf := by
  simp [Capacity, hs, hc]

/-- Witness for C4: the ExGraphTests.NodeNoCap scenario — node 0 added to a
set with no capacities; its capacity on the arc to node 1 is +∞. -/
theorem C4_witness :
    Capacity (⟨[(0, ⟨some 0, []⟩)], [], [], [], [], []⟩ : ExchangeGraph)
      0 ⟨0, 1⟩ = .ok .inf :=
  C4_empty_caps_unbounded _ 0 ⟨0, 1⟩ 0 rfl rfl

/-- Claim C5 (amended): for a node that belongs to no NodeSet, `Capacity`
raises StateError for every arc, and `UpdateCapacity` raises StateError
for every qty ≥ 0.  (For qty < 0 the spec's §4.4 step 1 raises ValueError
before the set check is reached, so the original "for any qty" fails; see
the counterexample.) -/
theorem C5_no_set_state_error (g : ExchangeGraph) (n : ℕ) (a : Arc) (qty : ℚ)
    (hs : (nodeOf g n).set = none) :
    Capacity g n a = .err .stateError ∧
      (0 ≤ qty → UpdateCapacity g n a qty = .err .stateError) := by
  constructor
  · unfold Capacity
    rw [hs]
  · intro hq
    unfold UpdateCapacity
    rw [if_neg (not_lt.mpr hq), hs]

/-- Counterexample for C5 as stated: a node that belongs to no NodeSet, with
qty = −1: `UpdateCapacity` raises ValueError, not StateError (the
negative-quantity check precedes the set check). -/
theorem C5_counterexample :
    UpdateCapacity (⟨[], [], [], [], [], []⟩ : ExchangeGraph) 0 ⟨0, 1⟩ (-1)
        = .err .valueError ∧
      UpdateCapacity (⟨[], [], [], [], [], []⟩ : ExchangeGraph) 0 ⟨0, 1⟩ (-1)
        ≠ .err .stateError := by
  constructor
  · unfold UpdateCapacity
    rw [if_pos (by norm_num)]
  · intro h
    rw [UpdateCapacity, if_pos (by norm_num)] at h
    cases h

/-- Witness for C5: the ExGraphTests.NodeCapThrow / NodeUpdateThrow1
scenario — a fresh node, never added to a set, queried and updated with
qty = 5. -/
theorem C5_witness :
    Capacity (⟨[], [], [], [], [], []⟩ : ExchangeGraph) 0 ⟨0, 1⟩
        = .err .stateError ∧
      UpdateCapacity (⟨[], [], [], [], [], []⟩ : ExchangeGraph) 0 ⟨0, 1⟩ 5
        = .err .stateError := by
  have h := C5_no_set_state_error ⟨[], [], [], [], [], []⟩ 0 ⟨0, 1⟩ 5 rfl
  exact ⟨h.1, h.2 (by norm_num)⟩

/-- Claim C7: a sequence of `AddArc` calls appends every arc to the
incidence lists of both of its endpoints, and every node's incidence list
records exactly the arcs incident to it in `AddArc` call order, with no
reordering and no deduplication. -/
theorem C7_add_arc_order (g : ExchangeGraph) (as : List Arc) (n : ℕ) :
    arcsOf (as.foldl AddArc g) n = arcsOf g n ++ (as.map (incTo n)).flatten := by
  induction as generalizing g with
  | nil => simp
  | cons a rest ih =>
    simp only [List.foldl_cons, List.map_cons, List.flatten_cons]
    rw [ih, arcsOf_AddArc, List.append_assoc]

/-- Claim C3: for an arc whose two endpoints both currently admit a capacity
value, the arc capacity is the minimum of the two endpoint capacities;
the statement is quantified over any state reached from any start state
by any sequence of legal (error-free) `UpdateCapacity` calls, so it
remains true after updates on either endpoint. -/
theorem C3_arc_capacity_min (g g' : ExchangeGraph) (ups : List (ℕ × Arc × ℚ))
    (a : Arc) (cu cv : Cap)
    (hupd : ApplyUpdates g ups = .ok g')
    (hu : Capacity g' a.u a = .ok cu) (hv : Capacity g' a.v a = .ok cv) :
    ArcCapacity g' a = .ok (Cap.min cu cv) := by
  simp only [ArcCapacity, hu, hv]

/-- Witness for C3: the ExGraphTests.ArcCap scenario after both updates —
the arc capacity is min(0.5, 0) = 0. -/
theorem C3_witness :
    ArcCapacity gArcCapFinal aArcCap = .ok (Cap.min (Cap.val (1/2)) (Cap.val 0)) :=
  C3_arc_capacity_min gArcCap gArcCapFinal [(0, aArcCap, 1), (1, aArcCap, 1)]
    aArcCap (Cap.val (1/2)) (Cap.val 0)
    (by norm_num [ApplyUpdates, UpdateCapacity, subCaps, clampCaps, capsOf,
      ucapsOf, nodeOf, alookup, aset, defaultNode, DoubleNeg, eps, gArcCap,
      gArcCapFinal, aArcCap])
    (by norm_num [Capacity, minRatio, ratio, capsOf, ucapsOf, nodeOf, alookup,
      defaultNode, Cap.min, gArcCapFinal, gArcCap, aArcCap])
    (by norm_num [Capacity, minRatio, ratio, capsOf, ucapsOf, nodeOf, alookup,
      defaultNode, Cap.min, gArcCapFinal, gArcCap, aArcCap])

/-- Claim C6 (amended): all bids in a BidPortfolio must share one bidder
identity and one commodity: an AddBid from a different bidder, or naming
a request whose commodity differs from the portfolio's, raises KeyError;
a second AddBid naming an already-referenced request (same bidder, same
commodity) is accepted, per BidPortfolioTests.Sets. -/
theorem C6_portfolio_invariants (p : BidPortfolio) (r : Request) (b : ℕ) :
    (∀ b0, p.bidder = some b0 → b ≠ b0 → AddBid p r b = .err .keyError) ∧
    (∀ c0, p.commodity = some c0 → r.commodity ≠ c0 →
      (p.bidder = none ∨ p.bidder = some b) →
      AddBid p r b = .err .keyError) ∧
    ((p.bidder = none ∨ p.bidder = some b) →
      (p.commodity = none ∨ p.commodity = some r.commodity) →
      AddBid p r b = .ok { bidder := some b, commodity := some r.commodity,
                           bids := p.bids ++ [(r, b)] }) := by
  refine ⟨?_, ?_, ?_⟩
  · intro b0 hb hne
    simp [AddBid, hb, Ne.symm hne]
  · intro c0 hc hne hb
    rcases hb with hb | hb <;> simp [AddBid, hb, hc, Ne.symm hne]
  · intro hb hc
    rcases hb with hb | hb <;> rcases hc with hc | hc <;> simp [AddBid, hb, hc]

/-- Counterexample for C6 as stated: a second AddBid naming the same request
on the same portfolio (same bidder 1, same commodity 0) succeeds — it
does not raise KeyError, contrary to the claim's at-most-once rule. -/
theorem C6_counterexample :
    AddBid ⟨some 1, some 0, [(⟨0, 0⟩, 1)]⟩ ⟨0, 0⟩ 1
        = .ok ⟨some 1, some 0, [(⟨0, 0⟩, 1), (⟨0, 0⟩, 1)]⟩ ∧
      AddBid ⟨some 1, some 0, [(⟨0, 0⟩, 1)]⟩ ⟨0, 0⟩ 1 ≠ .err .keyError := by
  decide

/-- Witness for C6 (amended): BidPortfolioTests.RespAdd — an AddBid by
bidder 2 on a portfolio whose bids belong to bidder 1 raises KeyError. -/
theorem C6_witness :
    AddBid ⟨some 1, some 0, [(⟨0, 0⟩, 1)]⟩ ⟨1, 1⟩ 2 = .err .keyError :=
  (C6_portfolio_invariants ⟨some 1, some 0, [(⟨0, 0⟩, 1)]⟩ ⟨1, 1⟩ 2).1 1 rfl
    (by decide)

/-- Claim C10 (amended): Log::ToString is total and never propagates an
exception: for a level in the registered range 0..6
(LEV_ERROR..LEV_DEBUG3) it returns the registered name left-padded
(right-justified) to width 12, and for any level value outside the
registered range it returns "BAD_LEVEL" instead of raising. -/
theorem C10_toString_total (level : ℤ) :
    (0 ≤ level → level < 7 →
      logToString level = padName (logLevelNames.getD level.toNat "")) ∧
    ((level < 0 ∨ 7 ≤ level) → logToString level = "BAD_LEVEL") := by
  constructor
  · intro h0 h7
    have h : level = 0 ∨ level = 1 ∨ level = 2 ∨ level = 3 ∨ level = 4 ∨
        level = 5 ∨ level = 6 := by omega
    rcases h with h|h|h|h|h|h|h <;> subst h <;> decide
  · rintro (h | h)
    · unfold logToString
      rw [if_pos h]
    · unfold logToString
      rw [if_neg (by omega)]
      apply List.getD_eq_default
      have hlen : level_to_string.length = 7 := by decide
      omega

/-- Counterexample for C10 as stated: the registered name is left-padded,
not right-padded: ToString(LEV_ERROR) = "   LEV_ERROR", which differs
from the right-padded reading "LEV_ERROR   ". -/
theorem C10_counterexample :
    logToString 0 = "   LEV_ERROR" ∧
      logToString 0 ≠ rightPadSpec "LEV_ERROR" := by
  decide

/-- Witness for C10 (amended): level 2 resolves to the padded "LEV_INFO";
level 9 is outside the registered range and yields "BAD_LEVEL". -/
theorem C10_witness :
    logToString 2 = padName (logLevelNames.getD (Int.toNat 2) "") ∧
      logToString 9 = "BAD_LEVEL" :=
  ⟨(C10_toString_total 2).1 (by decide) (by decide),
   (C10_toString_total 9).2 (by decide)⟩

theorem capsOf_update_self (g : ExchangeGraph) (L : List ℚ) (s : ℕ) :
    capsOf { g with setCaps := aset s L g.setCaps } s = L := by
  unfold capsOf
  rw [alookup_aset_self]
  rfl

theorem capsOf_update_ne (g : ExchangeGraph) (L : List ℚ) (s t : ℕ) (h : t ≠ s) :
    capsOf { g with setCaps := aset s L g.setCaps } t = capsOf g t := by
  unfold capsOf
  rw [alookup_aset_ne _ _ _ h]

/-- The per-dimension heart of the linear-composition law: clamping after
the first subtraction lifts the value by at most eps (legality of the
first update bounds the deficit), and one further subtraction plus
clamping preserves that gap, so the sequential result differs from the
combined result by at most eps. -/
theorem clamp_compose_withinEps (c u q1 q2 : ℚ) (h : -eps ≤ c - u * q1) :
    |max (max (c - u * q1) 0 - u * q2) 0 - max (c - u * (q1 + q2)) 0| ≤ eps := by
  have heps : (0 : ℚ) < eps := by norm_num [eps]
  have hc : c - u * (q1 + q2) = c - u * q1 - u * q2 := by ring
  rw [hc]
  rcases le_total (c - u * q1) 0 with hx | hx
  · rw [max_eq_right hx]
    rcases le_total (0 - u * q2) 0 with hy | hy
    · rw [max_eq_right hy]
      rcases le_total (c - u * q1 - u * q2) 0 with hz | hz
      · rw [max_eq_right hz]
        simpa using heps.le
      · rw [max_eq_left hz, abs_le]
        constructor <;> linarith
    · rw [max_eq_left hy]
      rcases le_total (c - u * q1 - u * q2) 0 with hz | hz
      · rw [max_eq_right hz, abs_le]
        constructor <;> linarith
      · rw [max_eq_left hz, abs_le]
        constructor <;> linarith
  · rw [max_eq_left hx, sub_self, abs_zero]
    exact heps.le

theorem ListWithinEps_nil : ListWithinEps [] [] := by
  refine ⟨rfl, fun i => ?_⟩
  rw [sub_self, abs_zero]
  norm_num [eps]

theorem ListWithinEps_cons (a b : ℚ) (l1 l2 : List ℚ)
    (h1 : |a - b| ≤ eps) (h2 : ListWithinEps l1 l2) :
    ListWithinEps (a :: l1) (b :: l2) := by
  refine ⟨by simp [h2.1], fun i => ?_⟩
  cases i with
  | zero => simpa using h1
  | succ j => simpa using h2.2 j

theorem ListWithinEps_refl (l : List ℚ) : ListWithinEps l l := by
  refine ⟨rfl, fun i => ?_⟩
  rw [sub_self, abs_zero]
  norm_num [eps]

/-- List form of the linear-composition law: when every dimension of the
first update is legal, applying two subtractions with clamping in
sequence agrees within eps, dimension by dimension, with applying the
combined subtraction once. -/
theorem seq_single_lists : ∀ (C U : List ℚ) (q1 q2 : ℚ),
    (∀ c ∈ subCaps C U q1, ¬ DoubleNeg c) →
    ListWithinEps (clampCaps (subCaps (clampCaps (subCaps C U q1)) U q2))
      (clampCaps (subCaps C U (q1 + q2))) := by
  intro C
  induction C with
  | nil =>
    intro U q1 q2 _
    simpa [subCaps_nil_left, clampCaps_nil] using ListWithinEps_nil
  | cons c C' ih =>
    intro U q1 q2 hleg
    cases U with
    | nil =>
      simpa [subCaps_nil_right, clampCaps_nil] using ListWithinEps_nil
    | cons u U' =>
      rw [subCaps_cons, clampCaps_cons, subCaps_cons, clampCaps_cons,
          subCaps_cons, clampCaps_cons]
      refine ListWithinEps_cons _ _ _ _ ?_ ?_
      · apply clamp_compose_withinEps
        have hh := hleg (c - u * q1) (by rw [subCaps_cons]; exact List.mem_cons_self _ _)
        unfold DoubleNeg at hh
        linarith [not_lt.mp hh]
      · refine ih U' q1 q2 (fun x hx => ?_)
        exact hleg x (by rw [subCaps_cons]; exact List.mem_cons_of_mem _ hx)

/-- Claim C8 (amended): for q₁, q₂ ≥ 0, if `UpdateCapacity(n, a, q₁)` then
`UpdateCapacity(n, a, q₂)` both succeed and the combined
`UpdateCapacity(n, a, q₁+q₂)` also succeeds, then for every NodeSet the
final capacity vector of the sequential run agrees with the combined
run's within eps componentwise.  (The combined update can raise
ValueError even when both sequential updates are legal — clamping can
absorb up to eps per step — so the original unconditional claim fails;
see the counterexample.) -/
theorem C8_update_linear_composition (g g1 g2 g12 : ExchangeGraph) (n : ℕ)
    (a : Arc) (q1 q2 : ℚ) (s : ℕ)
    (hq1 : 0 ≤ q1) (hq2 : 0 ≤ q2)
    (h1 : UpdateCapacity g n a q1 = .ok g1)
    (h2 : UpdateCapacity g1 n a q2 = .ok g2)
    (h12 : UpdateCapacity g n a (q1 + q2) = .ok g12) :
    ListWithinEps (capsOf g2 s) (capsOf g12 s) := by
  obtain ⟨s1, hs1, hleg1, hg1⟩ := update_ok_inv _ _ _ _ _ h1
  subst hg1
  obtain ⟨s2, hs2, hleg2, hg2⟩ := update_ok_inv _ _ _ _ _ h2
  subst hg2
  obtain ⟨s3, hs3, hleg3, hg12⟩ := update_ok_inv _ _ _ _ _ h12
  subst hg12
  have hs2x : (nodeOf g n).set = some s2 := hs2
  have hs3x : (nodeOf g n).set = some s3 := hs3
  rw [hs1] at hs2x hs3x
  injection hs2x with he2
  injection hs3x with he3
  subst he2
  subst he3
  by_cases hcase : s = s1
  · subst hcase
    rw [capsOf_update_self, capsOf_update_self, nodeOf_setCaps, capsOf_update_self]
    exact seq_single_lists _ _ q1 q2 hleg1
  · rw [capsOf_update_ne _ _ _ _ hcase, capsOf_update_ne _ _ _ _ hcase,
        capsOf_update_ne _ _ _ _ hcase]
    exact ListWithinEps_refl _

/-- Witness for C8 (amended): updates of 1 then 1 starting from C = [3]
reach the same capacities as a single update of 2. -/
theorem C8_witness : ListWithinEps (capsOf gC8b 0) (capsOf gC8b 0) :=
  C8_update_linear_composition gC8 gC8a gC8b gC8b 1 aC8 1 1 0
    (by norm_num) (by norm_num)
    (by norm_num [UpdateCapacity, subCaps, clampCaps, capsOf, ucapsOf, nodeOf,
      alookup, aset, defaultNode, DoubleNeg, eps, gC8, gC8a])
    (by norm_num [UpdateCapacity, subCaps, clampCaps, capsOf, ucapsOf, nodeOf,
      alookup, aset, defaultNode, DoubleNeg, eps, gC8, gC8a, gC8b])
    (by norm_num [UpdateCapacity, subCaps, clampCaps, capsOf, ucapsOf, nodeOf,
      alookup, aset, defaultNode, DoubleNeg, eps, gC8, gC8b])

/-- Counterexample for C8 as stated: with C = [0], u = [1] and
q₁ = q₂ = 0.9·eps, each sequential update is legal (the deficit stays
within the tolerance and is clamped back to 0, so the state is unchanged
and the same update is legal again), yet the single combined update of
q₁ + q₂ = 1.8·eps raises ValueError — there is no combined final
capacity vector for the sequential result to equal. -/
theorem C8_counterexample :
    UpdateCapacity gC8x 1 aC8 (9/10 * eps) = .ok gC8x ∧
      UpdateCapacity gC8x 1 aC8 (9/10 * eps + 9/10 * eps) = .err .valueError := by
  constructor <;>
    norm_num [UpdateCapacity, subCaps, clampCaps, capsOf, ucapsOf, nodeOf,
      alookup, aset, defaultNode, DoubleNeg, eps, gC8x, aC8]

/-- Claim C9: `AddMatch` appends exactly the pair `(a, qty)` to the end of
the match log and leaves every other component of the graph — in
particular every NodeSet capacity vector, and hence every capacity
query — unchanged. -/
theorem C9_add_match_frame (g : ExchangeGraph) (a : Arc) (qty : ℚ) :
    (AddMatch g a qty).match_log = g.match_log ++ [(a, qty)] ∧
      (AddMatch g a qty).nodes = g.nodes ∧
      (AddMatch g a qty).setCaps = g.setCaps ∧
      (AddMatch g a qty).request_sets = g.request_sets ∧
      (AddMatch g a qty).supply_sets = g.supply_sets ∧
      (AddMatch g a qty).node_arc_map = g.node_arc_map ∧
      (∀ m b, Capacity (AddMatch g a qty) m b = Capacity g m b) ∧
      (∀ b, ArcCapacity (AddMatch g a qty) b = ArcCapacity g b) :=
  ⟨rfl, rfl, rfl, rfl, rfl, rfl, fun _ _ => rfl, fun _ => rfl⟩

end Cyclus
